import Mathlib

/-!
Verification development for the iWatchRoad repository.

The repository's reviewed source is the TypeScript front end
(`src/components/Timeline.tsx` with its upload page, `src/services/locationSearchService.ts`,
`src/types/index.ts`, `src/components/FilterPanel.tsx`, `src/constants`).  The
Detection-to-Report Fusion Engine (Telemetry Synchronizer, Detection Normalizer,
Spatial Deduplication Engine, Severity Emitter, Pipeline Orchestrator) is described by
the specification but its code is not part of the reviewed source; those components are
modelled here from the specification's own algorithm description, as marked on each
definition.  Coordinates, timestamps and confidences are embedded as rationals.
-/

namespace IWatchRoad

/-- Modelled from the spec (§3): a geographic position, latitude and longitude. -/
@[ext]
structure Pos where
  lat : ℚ
  lng : ℚ
deriving DecidableEq

/-- Modelled from the spec (§3): DetectionEvent
`{frame_number, timestamp, latitude, longitude, confidence}`. -/
structure DetectionEvent where
  frame_number : ℕ
  timestamp : ℚ
  pos : Pos
  confidence : ℚ
deriving DecidableEq

/-- Modelled from the spec (§3): PotholeCluster `{id, centroid, member_count,
first_seen_frame, last_seen_frame, max_confidence}`; the `status ∈ {open, finalized}`
field is represented by which list of the engine state the cluster sits in. -/
structure PotholeCluster where
  id : ℕ
  centroid : Pos
  member_count : ℕ
  first_seen_frame : ℕ
  last_seen_frame : ℕ
  max_confidence : ℚ
deriving DecidableEq

/-- Distance function between positions.  The spec prescribes great-circle distance,
which is transcendental; the engine is therefore parametrised by the distance function,
and concrete instantiations below use a rational surrogate that agrees with
great-circle distance (up to the metres-per-degree scale) for points on a common
meridian or on the equator. -/
abbrev Dist := Pos → Pos → ℚ

/-- Modelled from the spec: `flatDist` is the concrete distance used for concrete runs;
along the equator (`lat = 0`) it equals the great-circle distance up to a constant
unit scale, since there great-circle distance is proportional to the longitude
difference. -/
def flatDist (p q : Pos) : ℚ := |p.lat - q.lat| + |p.lng - q.lng|

/-- Modelled from the spec (§4.3): the engine's per-job configuration, the
distance threshold (metres) and the frame-gap window (frames). -/
structure DedupConfig where
  distance_threshold : ℚ
  frame_gap : ℕ
deriving DecidableEq

/-- Modelled from the spec (§4.3): engine state, the open clusters, the finalized
clusters drained so far, and the next fresh cluster id. -/
structure EngineState where
  openClusters : List PotholeCluster
  finalizedClusters : List PotholeCluster
  nextId : ℕ
deriving DecidableEq

/-- Modelled from the spec (§4.3 step 2): fold a new member into an open cluster —
incremental running mean for the centroid, increment `member_count`, update
`max_confidence` and `last_seen_frame`. -/
def addMember (c : PotholeCluster) (e : DetectionEvent) : PotholeCluster :=
  let n : ℚ := c.member_count
  { c with
    centroid := ⟨c.centroid.lat + (e.pos.lat - c.centroid.lat) / (n + 1),
                 c.centroid.lng + (e.pos.lng - c.centroid.lng) / (n + 1)⟩
    member_count := c.member_count + 1
    last_seen_frame := e.frame_number
    max_confidence := max c.max_confidence e.confidence }

/-- Modelled from the spec (§4.3 step 3): a new open cluster seeded at the event's
position. -/
def newCluster (id : ℕ) (e : DetectionEvent) : PotholeCluster :=
  { id := id
    centroid := e.pos
    member_count := 1
    first_seen_frame := e.frame_number
    last_seen_frame := e.frame_number
    max_confidence := e.confidence }

/-- Modelled from the spec (§4.3 steps 1–2): pick the open cluster whose centroid is
nearest to `p`; exact distance ties break by lowest cluster id. -/
def pickNearest (dist : Dist) (p : Pos) : List PotholeCluster → Option PotholeCluster
  | [] => none
  | c :: cs =>
    match pickNearest dist p cs with
    | none => some c
    | some d =>
      if dist p c.centroid < dist p d.centroid ∨
          (dist p c.centroid = dist p d.centroid ∧ c.id < d.id) then some c else some d

/-- Modelled from the spec (§4.3 step 4): a cluster is stale at frame `frame` when it
has not received a new member for more than the frame-gap window. -/
def isStale (gap frame : ℕ) (c : PotholeCluster) : Bool :=
  c.last_seen_frame + gap < frame

/-- Modelled from the spec (§4.3 step 4): finalization is evaluated incrementally as
new events arrive with advancing frame numbers; stale open clusters move to the
finalized list. -/
def finalizeStale (gap frame : ℕ) (st : EngineState) : EngineState :=
  { st with
    openClusters := st.openClusters.filter (fun c => ! isStale gap frame c)
    finalizedClusters := st.finalizedClusters ++ st.openClusters.filter (isStale gap frame) }

/-- Modelled from the spec (§4.3 steps 1–3): assign the event to the nearest open
cluster if that one is within the distance threshold, otherwise create a new open
cluster seeded at the event's position. -/
def assignEvent (dist : Dist) (θ : ℚ) (st : EngineState) (e : DetectionEvent) : EngineState :=
  match pickNearest dist e.pos st.openClusters with
  | some c =>
    if dist e.pos c.centroid ≤ θ then
      { st with openClusters :=
          st.openClusters.map (fun d => if d.id = c.id then addMember d e else d) }
    else
      { st with openClusters := st.openClusters ++ [newCluster st.nextId e]
                nextId := st.nextId + 1 }
  | none =>
      { st with openClusters := st.openClusters ++ [newCluster st.nextId e]
                nextId := st.nextId + 1 }

/-- Modelled from the spec (§4.3): process one incoming DetectionEvent — first
finalize clusters that fell out of the frame-gap window, then assign the event. -/
def processEvent (dist : Dist) (θ : ℚ) (gap : ℕ) (st : EngineState) (e : DetectionEvent) :
    EngineState :=
  assignEvent dist θ (finalizeStale gap e.frame_number st) e

/-- Modelled from the spec (§4.3 step 5): at end of stream, all remaining open
clusters are finalized unconditionally. -/
def finalizeAll (st : EngineState) : EngineState :=
  { st with openClusters := [], finalizedClusters := st.finalizedClusters ++ st.openClusters }

/-- Modelled from the spec: the engine's initial state, no clusters, fresh id 0. -/
def initState : EngineState := ⟨[], [], 0⟩

/-- Modelled from the spec (§4.3): the full streaming single-pass run of the Spatial
Deduplication Engine over a time-ordered event stream. -/
def runEngine (dist : Dist) (cfg : DedupConfig) (events : List DetectionEvent) : EngineState :=
  finalizeAll (events.foldl (processEvent dist cfg.distance_threshold cfg.frame_gap) initState)

/-- Severity tiers, from `src/types/index.ts`:
`type PotholeSeverity = 'low' | 'medium' | 'high' | 'critical'`. -/
inductive Severity
  | low
  | medium
  | high
  | critical
deriving DecidableEq

/-- Rank of a severity tier in the four-tier order low < medium < high < critical. -/
def sevRank : Severity → ℕ
  | .low => 0
  | .medium => 1
  | .high => 2
  | .critical => 3

/-- String name of each severity tier, as it appears in `src/types/index.ts`. -/
def sevName : Severity → String
  | .low => "low"
  | .medium => "medium"
  | .high => "high"
  | .critical => "critical"

/-- Severity filter options from `src/components/FilterPanel.tsx`:
`const severityOptions = ['all', 'low', 'medium', 'high', 'critical']`. -/
def severityOptions : List String := ["all", "low", "medium", "high", "critical"]

/-- Modelled from the spec (§4.4, §9): the numeric mapping from
`(member_count, max_confidence)` to a severity tier is left open by the spec, which
requires only a monotone four-tier policy; this is a representative such policy
(more observations and higher confidence never lower the tier). -/
def deriveSeverity (member_count : ℕ) (max_confidence : ℚ) : Severity :=
  if 10 ≤ member_count ∨ (5 ≤ member_count ∧ 4/5 ≤ max_confidence) then .critical
  else if 5 ≤ member_count ∨ (3 ≤ member_count ∧ 3/5 ≤ max_confidence) then .high
  else if 2 ≤ member_count ∨ 1/2 ≤ max_confidence then .medium
  else .low

/-- Modelled from the spec (§3): the immutable PotholeReport emitted for a finalized
cluster. -/
structure PotholeReport where
  cluster_id : ℕ
  latitude : ℚ
  longitude : ℚ
  num_potholes : ℕ
  severity : Severity
  first_observed_at : ℕ
  last_observed_at : ℕ
deriving DecidableEq

/-- Modelled from the spec (§4.4): emit the report for a finalized cluster;
`num_potholes` is 1 because the upstream detector reports one box per detection. -/
def emitReport (c : PotholeCluster) : PotholeReport :=
  { cluster_id := c.id
    latitude := c.centroid.lat
    longitude := c.centroid.lng
    num_potholes := 1
    severity := deriveSeverity c.member_count c.max_confidence
    first_observed_at := c.first_seen_frame
    last_observed_at := c.last_seen_frame }

/-- Modelled from the spec: the fusion engine's report output for an ordered event
stream. -/
def runReports (dist : Dist) (cfg : DedupConfig) (events : List DetectionEvent) :
    List PotholeReport :=
  (runEngine dist cfg events).finalizedClusters.map emitReport

/-- Specification of the assignment choice (§4.3 steps 1–2): a cluster of the open
set whose centroid is nearest to `p`, with exact distance ties broken by lowest
cluster id. -/
def IsNearestChoice (dist : Dist) (p : Pos) (l : List PotholeCluster)
    (c : PotholeCluster) : Prop :=
  c ∈ l ∧ (∀ d ∈ l, dist p c.centroid ≤ dist p d.centroid) ∧
    ∀ d ∈ l, dist p c.centroid = dist p d.centroid → c.id ≤ d.id

/-- Sum of the member latitudes of an event list. -/
def sumLat (l : List DetectionEvent) : ℚ := (l.map (fun e => e.pos.lat)).sum

/-- Sum of the member longitudes of an event list. -/
def sumLng (l : List DetectionEvent) : ℚ := (l.map (fun e => e.pos.lng)).sum

/-- The cluster obtained by seeding at event `e` (§4.3 step 3) and folding in the
events of `l` as further members (§4.3 step 2), in arrival order. -/
def clusterOfEvents (id : ℕ) (e : DetectionEvent) (l : List DetectionEvent) :
    PotholeCluster :=
  l.foldl addMember (newCluster id e)

/-- Modelled from the spec (§3): GpsFix `{timestamp, latitude, longitude}` (the
optional heading and speed fields play no role in any claim). -/
structure GpsFix where
  timestamp : ℚ
  lat : ℚ
  lng : ℚ
deriving DecidableEq

/-- Modelled from the spec (§4.1, §7): the Synchronizer's failure. -/
inductive SyncError
  | NoCoverage
deriving DecidableEq

/-- Modelled from the spec (§4.1): linear-in-time interpolation between the two
bracketing fixes. -/
def interp (f1 f2 : GpsFix) (T : ℚ) : ℚ × ℚ :=
  let r := (T - f1.timestamp) / (f2.timestamp - f1.timestamp)
  (f1.lat + (f2.lat - f1.lat) * r, f1.lng + (f2.lng - f1.lng) * r)

/-- Modelled from the spec (§4.1): the Frame/Telemetry Synchronizer.  Walk the
time-sorted track; an exact timestamp match returns that fix's position exactly;
a timestamp strictly between two consecutive fixes interpolates linearly provided the
bracketing fixes are at most `maxGap` apart, and fails with `NoCoverage` otherwise;
a timestamp outside the track's time range fails with `NoCoverage`. -/
def synchronize (maxGap T : ℚ) : List GpsFix → Except SyncError (ℚ × ℚ)
  | [] => .error .NoCoverage
  | [f] => if T = f.timestamp then .ok (f.lat, f.lng) else .error .NoCoverage
  | f1 :: f2 :: rest =>
    if T = f1.timestamp then .ok (f1.lat, f1.lng)
    else if T < f2.timestamp then
      if f1.timestamp < T ∧ f2.timestamp - f1.timestamp ≤ maxGap then .ok (interp f1 f2 T)
      else .error .NoCoverage
    else synchronize maxGap T (f2 :: rest)

/-- Strict time-sortedness of a telemetry track (duplicates are resolved at load time
by keeping the latest-read fix, per §3). -/
def TrackSorted (track : List GpsFix) : Prop :=
  track.Pairwise (fun a b => a.timestamp < b.timestamp)

/-- Telemetry dropout: some pair of consecutive fixes strictly brackets `T` but is
separated by more than the configured maximum gap. -/
def Dropout (maxGap T : ℚ) (track : List GpsFix) : Prop :=
  ∃ l1 f1 f2 l2, track = l1 ++ f1 :: f2 :: l2 ∧
    f1.timestamp < T ∧ T < f2.timestamp ∧ maxGap < f2.timestamp - f1.timestamp

/-- Modelled from the spec (§3): RawDetection
`{frame_number, frame_timestamp, bounding_box, confidence}`. -/
structure RawDetection where
  frame_number : ℕ
  frame_timestamp : ℚ
  bounding_box : ℚ × ℚ × ℚ × ℚ
  confidence : ℚ
deriving DecidableEq

/-- Modelled from the spec (§4.2, §7): per-detection, non-fatal rejection reasons. -/
inductive DropReason
  | LowConfidence
  | Unlocated
deriving DecidableEq

/-- Modelled from the spec (§7): per-job, fatal errors. -/
inductive JobError
  | TelemetryLoadError
  | DetectorError
  | OutOfOrder
deriving DecidableEq

/-- Modelled from the spec (§4.2): the Detection Normalizer — reject below the
confidence floor with `LowConfidence`, reject with `Unlocated` when the Synchronizer
fails, and emit a DetectionEvent otherwise. -/
def normalize (maxGap confFloor : ℚ) (track : List GpsFix) (d : RawDetection) :
    Except DropReason DetectionEvent :=
  if d.confidence < confFloor then .error .LowConfidence
  else
    match synchronize maxGap d.frame_timestamp track with
    | .error _ => .error .Unlocated
    | .ok p => .ok ⟨d.frame_number, d.frame_timestamp, ⟨p.1, p.2⟩, d.confidence⟩

/-- Modelled from the spec (§4.2, §7): normalize a batch of RawDetections; rejected
detections are dropped but every rejection reason is recorded for observability. -/
def normalizeAll (maxGap confFloor : ℚ) (track : List GpsFix) :
    List RawDetection → List DetectionEvent × List DropReason
  | [] => ([], [])
  | d :: ds =>
    let rest := normalizeAll maxGap confFloor track ds
    match normalize maxGap confFloor track d with
    | .ok e => (e :: rest.1, rest.2)
    | .error r => (rest.1, r :: rest.2)

/-- Timestamp order on DetectionEvents, used by the Orchestrator's reordering step. -/
def tsLE (a b : DetectionEvent) : Prop := a.timestamp ≤ b.timestamp

instance : DecidableRel tsLE := fun a b => inferInstanceAs (Decidable (a.timestamp ≤ b.timestamp))

instance : IsTotal DetectionEvent tsLE := ⟨fun a b => le_total a.timestamp b.timestamp⟩

instance : IsTrans DetectionEvent tsLE := ⟨fun _ _ _ h1 h2 => le_trans h1 h2⟩

/-- Modelled from the spec (§5): the Orchestrator's reordering buffer — DetectionEvents
are time-sorted before reaching the Deduplication Engine. -/
def sortEvents (events : List DetectionEvent) : List DetectionEvent :=
  List.insertionSort tsLE events

/-- Modelled from the spec (§4.3, §7): the engine's guarded streaming loop.  Events
must arrive in non-decreasing timestamp order; an out-of-order event is a fatal
`OutOfOrder` error that aborts the run, leaving the state — and hence every report
already finalized and emitted — exactly as it was before the offending event.  A run
that reaches the end of the stream finalizes all remaining open clusters. -/
def fuseEvents (dist : Dist) (θ : ℚ) (gap : ℕ) (st : EngineState) (lastT : Option ℚ) :
    List DetectionEvent → EngineState × Option JobError
  | [] => (finalizeAll st, none)
  | e :: rest =>
    match lastT with
    | some t0 =>
      if e.timestamp < t0 then (st, some .OutOfOrder)
      else fuseEvents dist θ gap (processEvent dist θ gap st e) (some e.timestamp) rest
    | none => fuseEvents dist θ gap (processEvent dist θ gap st e) (some e.timestamp) rest

/-- Modelled from the spec (§4.5): terminal job states. -/
inductive JobState
  | Finalized
  | Failed (reason : JobError)
deriving DecidableEq

/-- Modelled from the spec (§4.5, §6): the outcome of one job — its terminal state, the
reports emitted (all of them on success, the ones emitted before the failure otherwise),
and the recorded per-detection drops. -/
structure JobResult where
  state : JobState
  reports : List PotholeReport
  drops : List DropReason
deriving DecidableEq

/-- Modelled from the spec (§4.5): per-job configuration as supplied by the caller. -/
structure JobConfig where
  distance_threshold : ℚ
  frame_gap : ℕ
  confidence_floor : ℚ
  max_time_gap : ℚ
deriving DecidableEq

/-- Modelled from the spec (§4.5): the Pipeline Orchestrator for one job.  An empty
telemetry track fails the job with `TelemetryLoadError` before anything is emitted; a
terminal detector error fails the job with `DetectorError`; otherwise detections are
normalized (per-detection rejections recorded, never fatal), time-sorted, and fused. -/
def runJob (dist : Dist) (cfg : JobConfig) (track : List GpsFix)
    (detections : Except JobError (List RawDetection)) : JobResult :=
  if track = [] then ⟨.Failed .TelemetryLoadError, [], []⟩
  else
    match detections with
    | .error err => ⟨.Failed err, [], []⟩
    | .ok dets =>
      let norm := normalizeAll cfg.max_time_gap cfg.confidence_floor track dets
      let fused := fuseEvents dist cfg.distance_threshold cfg.frame_gap initState none
        (sortEvents norm.1)
      match fused.2 with
      | some err => ⟨.Failed err, fused.1.finalizedClusters.map emitReport, norm.2⟩
      | none => ⟨.Finalized, fused.1.finalizedClusters.map emitReport, norm.2⟩

/-- Modelled from the spec (§4.5, §5): jobs are isolated — each job's result depends
only on that job's own inputs. -/
def runJobs (dist : Dist)
    (jobs : List (JobConfig × List GpsFix × Except JobError (List RawDetection))) :
    List JobResult :=
  jobs.map (fun j => runJob dist j.1 j.2.1 j.2.2)

/-- From `src/components/Timeline.tsx` (UploadPage):
`useState<number>(2.5)` — the initial value of the `distanceThreshold` state. -/
def defaultDistanceThreshold : ℚ := 2.5

/-- From `src/components/Timeline.tsx` (UploadPage.processVideo): the JSON request
body `{video_path, gps_directory, distance_threshold}`. -/
structure ProcessVideoBody where
  video_path : String
  gps_directory : String
  distance_threshold : ℚ
deriving DecidableEq

/-- From `src/components/Timeline.tsx` (UploadPage.processVideo): the POST issued to
`/api/process-video/` carries the video path, the GPS directory and the user-chosen
distance threshold in its body. -/
def processVideo (videoPath gpsDirectory : String) (distanceThreshold : ℚ) :
    String × ProcessVideoBody :=
  ("/api/process-video/", ⟨videoPath, gpsDirectory, distanceThreshold⟩)

/-- From `src/constants/api.ts`: `API_ENDPOINTS.potholes = '/potholes/'`. -/
def potholesEndpoint : String := "/potholes/"

/-- From `src/services/locationSearchService.ts` (PotholeApiService.getPotholes):
the filters object, embedded as its entry list; a value is `none` when the field is
`undefined` or `null`, and `some s` holds the value's `toString()` serialization. -/
abbrev PotholeFilters := List (String × Option String)

/-- From `src/services/locationSearchService.ts` (PotholeApiService.getPotholes):
`Object.entries(filters).forEach(...)` appends each entry whose value is neither
`undefined` nor `null` and whose key is neither `'page'` nor `'page_size'`. -/
def buildQueryPairs (filters : PotholeFilters) : List (String × String) :=
  filters.foldl
    (fun params kv =>
      match kv.2 with
      | some v => if kv.1 ≠ "page" ∧ kv.1 ≠ "page_size" then params ++ [(kv.1, v)] else params
      | none => params)
    []

/-- Serialization of a `URLSearchParams` pair list (`k=v` joined by `&`); with zero
entries `params.toString()` is the empty string, which is falsy in TypeScript. -/
def serializeParams (params : List (String × String)) : String :=
  String.intercalate "&" (params.map (fun kv => kv.1 ++ "=" ++ kv.2))

/-- From `src/services/locationSearchService.ts` (PotholeApiService.getPotholes):
`const endpoint = API_ENDPOINTS.potholes + (params.toString() ? '?' + params : '')`. -/
def getPotholesEndpoint (filters : PotholeFilters) : String :=
  let params := buildQueryPairs filters
  potholesEndpoint ++ (if serializeParams params = "" then "" else "?" ++ serializeParams params)

/-- From `src/types/index.ts`: SearchResult
`{place_id, display_name, lat, lon, boundingbox}`. -/
structure SearchResult where
  place_id : String
  display_name : String
  lat : String
  lon : String
  boundingbox : List String
deriving DecidableEq

/-- Outcome of the `fetch` call in `LocationSearchService.searchLocations`:
the network call may reject, or return a response with an `ok` flag whose JSON body
may or may not parse as a `SearchResult` list. -/
inductive FetchOutcome
  | networkFailure
  | response (ok : Bool) (body : Option (List SearchResult))
deriving DecidableEq

/-- JavaScript `String.prototype.trim`, embedded over the character list (leading and
trailing whitespace stripped). -/
def jsTrim (s : String) : String :=
  String.mk (((s.data.dropWhile Char.isWhitespace).reverse.dropWhile Char.isWhitespace).reverse)

/-- From `src/services/locationSearchService.ts` (LocationSearchService.searchLocations):
an empty or whitespace-only query short-circuits to `[]` before any network request
(`if (!query.trim()) return []`); otherwise the fetch outcome is consumed inside a
`try`/`catch` that returns `[]` on a rejected fetch, on a non-OK response
(`throw` then caught) and on a JSON parse failure.  The returned Boolean records
whether a network request was issued. -/
def searchLocations (query : String) (outcome : FetchOutcome) : Bool × List SearchResult :=
  if jsTrim query = "" then (false, [])
  else
    (true,
      match outcome with
      | .networkFailure => []
      | .response ok body => if ok then body.getD [] else [])

/-- Concrete detection event used in concrete runs: frame 1, at the origin. -/
def ce0 : DetectionEvent := ⟨1, 1, ⟨0, 0⟩, 9/10⟩

/-- Concrete detection event used in concrete runs: frame 2, 2.5 units east. -/
def ce1 : DetectionEvent := ⟨2, 2, ⟨0, 5/2⟩, 9/10⟩

/-- Concrete detection event used in concrete runs: frame 3, 0.6 units east; within
threshold 2 of both `ce0`'s and `ce1`'s positions, and nearer to `ce0`'s. -/
def ce2 : DetectionEvent := ⟨3, 3, ⟨0, 3/5⟩, 9/10⟩

/-- Concrete detection event for witnesses: frame 1, at the origin. -/
def evA : DetectionEvent := ⟨1, 1, ⟨0, 0⟩, 7/10⟩

/-- Concrete detection event for witnesses: frame 2, one unit east. -/
def evB : DetectionEvent := ⟨2, 2, ⟨0, 1⟩, 4/5⟩

/-- Concrete two-fix telemetry track from the spec's §8 scenario:
`[(t=0,0,0), (t=10,0,1)]`. -/
def track2 : List GpsFix := [⟨0, 0, 0⟩, ⟨10, 0, 1⟩]

/-- Concrete job configuration for witnesses. -/
def cfgJ : JobConfig := ⟨2, 50, 1/2, 10⟩

/-! Helper lemmas. -/

lemma buildQueryPairs_foldl (filters : PotholeFilters) :
    ∀ acc : List (String × String),
      filters.foldl
        (fun params kv =>
          match kv.2 with
          | some v =>
            if kv.1 ≠ "page" ∧ kv.1 ≠ "page_size" then params ++ [(kv.1, v)] else params
          | none => params) acc =
      acc ++ filters.filterMap (fun kv =>
        match kv.2 with
        | some v => if kv.1 ≠ "page" ∧ kv.1 ≠ "page_size" then some (kv.1, v) else none
        | none => none) := by
  induction filters with
  | nil => intro acc; simp
  | cons kv rest ih =>
    intro acc
    obtain ⟨k, v⟩ := kv
    cases v with
    | none => simpa using ih acc
    | some s =>
      by_cases hk : k ≠ "page" ∧ k ≠ "page_size"
      · simp only [List.foldl_cons, List.filterMap_cons, if_pos hk]
        rw [ih]
        simp
      · simp only [List.foldl_cons, List.filterMap_cons, if_neg hk]
        exact ih acc

lemma buildQueryPairs_eq_filterMap (filters : PotholeFilters) :
    buildQueryPairs filters =
      filters.filterMap (fun kv =>
        match kv.2 with
        | some v => if kv.1 ≠ "page" ∧ kv.1 ≠ "page_size" then some (kv.1, v) else none
        | none => none) := by
  simpa using buildQueryPairs_foldl filters []

/-! Claim theorems. -/

/-- C7: the caller submits a job as `{video_reference, gps_reference,
distance_threshold}`; the upload surface's request body to `/api/process-video/`
contains `video_path`, `gps_directory` and the user-chosen `distance_threshold`, and
the threshold is the per-job parameter carried in the submission (equal to whatever
the caller chose), defaulting to 2.5. -/
theorem processVideo_carries_threshold :
    ∀ (v g : String) (θ : ℚ),
      processVideo v g θ = ("/api/process-video/", ⟨v, g, θ⟩) ∧
      (processVideo v g θ).2.distance_threshold = θ ∧
      defaultDistanceThreshold = 5/2 := by
  intro v g θ
  refine ⟨rfl, rfl, ?_⟩
  norm_num [defaultDistanceThreshold]

/-- C9: the query string issued by `PotholeApiService.getPotholes` contains exactly
those filter entries whose value is neither undefined nor null and whose key is
neither `page` nor `page_size`; an empty resulting parameter set yields the bare
potholes endpoint with no `?` suffix. -/
theorem getPotholes_query_exact :
    ∀ filters : PotholeFilters,
      (buildQueryPairs filters =
        filters.filterMap (fun kv =>
          match kv.2 with
          | some v => if kv.1 ≠ "page" ∧ kv.1 ≠ "page_size" then some (kv.1, v) else none
          | none => none)) ∧
      (∀ k v, (k, v) ∈ buildQueryPairs filters ↔
        ((k, some v) ∈ filters ∧ k ≠ "page" ∧ k ≠ "page_size")) ∧
      (buildQueryPairs filters = [] → getPotholesEndpoint filters = "/potholes/") := by
  intro filters
  refine ⟨buildQueryPairs_eq_filterMap filters, ?_, ?_⟩
  · intro k v
    rw [buildQueryPairs_eq_filterMap, List.mem_filterMap]
    constructor
    · rintro ⟨⟨k0, v0⟩, hmem, hf⟩
      cases v0 with
      | none => simp at hf
      | some s =>
        change (if k0 ≠ "page" ∧ k0 ≠ "page_size" then some (k0, s) else none) =
          some (k, v) at hf
        by_cases hk : k0 ≠ "page" ∧ k0 ≠ "page_size"
        · rw [if_pos hk] at hf
          simp only [Option.some.injEq, Prod.mk.injEq] at hf
          obtain ⟨rfl, rfl⟩ := hf
          exact ⟨hmem, hk.1, hk.2⟩
        · simp [if_neg hk] at hf
    · rintro ⟨hmem, hk1, hk2⟩
      exact ⟨(k, some v), hmem, by simp [hk1, hk2]⟩
  · intro hempty
    simp only [getPotholesEndpoint, hempty, serializeParams, potholesEndpoint]
    decide

/-- C9 witness: concrete filters whose every entry is dropped (a null value and the
`page` key) produce the bare potholes endpoint. -/
theorem getPotholes_query_exact_witness :
    getPotholesEndpoint [("page", some "1"), ("status", none)] = "/potholes/" :=
  (getPotholes_query_exact [("page", some "1"), ("status", none)]).2.2 (by decide)

/-- C10: `LocationSearchService.searchLocations` never throws — it is total on every
query and fetch outcome; an empty or whitespace-only query returns the empty list
without issuing a network request, and a rejected fetch, a non-OK HTTP response or an
unparsable body are all caught and return the empty list. -/
theorem searchLocations_total_safe :
    ∀ (q : String) (outcome : FetchOutcome),
      (jsTrim q = "" → searchLocations q outcome = (false, [])) ∧
      (searchLocations q .networkFailure).2 = [] ∧
      (∀ b, (searchLocations q (.response false b)).2 = []) ∧
      (searchLocations q (.response true none)).2 = [] := by
  intro q outcome
  refine ⟨fun h => by simp [searchLocations, h], ?_, ?_, ?_⟩ <;>
    first
      | (intro b
         by_cases h : jsTrim q = "" <;> simp [searchLocations, h])
      | (by_cases h : jsTrim q = "" <;> simp [searchLocations, h])

/-- C10 witness: a whitespace-only query returns the empty list and issues no
request, even when the network would have failed. -/
theorem searchLocations_total_safe_witness :
    searchLocations "   " FetchOutcome.networkFailure = (false, []) :=
  (searchLocations_total_safe "   " FetchOutcome.networkFailure).1 (by decide)

lemma sev_mono_crit {n1 n2 : ℕ} {c1 c2 : ℚ} (hn : n1 ≤ n2) (hc : c1 ≤ c2) :
    (10 ≤ n1 ∨ (5 ≤ n1 ∧ 4/5 ≤ c1)) → (10 ≤ n2 ∨ (5 ≤ n2 ∧ 4/5 ≤ c2)) := by
  rintro (h | ⟨h, h'⟩)
  · exact Or.inl (le_trans h hn)
  · exact Or.inr ⟨le_trans h hn, le_trans h' hc⟩

lemma sev_mono_high {n1 n2 : ℕ} {c1 c2 : ℚ} (hn : n1 ≤ n2) (hc : c1 ≤ c2) :
    (5 ≤ n1 ∨ (3 ≤ n1 ∧ 3/5 ≤ c1)) → (5 ≤ n2 ∨ (3 ≤ n2 ∧ 3/5 ≤ c2)) := by
  rintro (h | ⟨h, h'⟩)
  · exact Or.inl (le_trans h hn)
  · exact Or.inr ⟨le_trans h hn, le_trans h' hc⟩

lemma sev_mono_med {n1 n2 : ℕ} {c1 c2 : ℚ} (hn : n1 ≤ n2) (hc : c1 ≤ c2) :
    (2 ≤ n1 ∨ 1/2 ≤ c1) → (2 ≤ n2 ∨ 1/2 ≤ c2) := by
  rintro (h | h)
  · exact Or.inl (le_trans h hn)
  · exact Or.inr (le_trans h hc)

lemma sevRank_le_three (s : Severity) : sevRank s ≤ 3 := by
  cases s <;> simp [sevRank]

/-- C8: the derived severity is always one of the four ordered tiers of
`PotholeSeverity` (the non-`all` options of the severity filter), and the mapping
from `(member_count, max_confidence)` to the tier is monotone — increasing either
argument never lowers the tier. -/
theorem severity_four_tiers_monotone :
    (∀ (n : ℕ) (c : ℚ), sevName (deriveSeverity n c) ∈ severityOptions ∧
        sevName (deriveSeverity n c) ≠ "all") ∧
    (∀ (n1 n2 : ℕ) (c1 c2 : ℚ), n1 ≤ n2 → c1 ≤ c2 →
        sevRank (deriveSeverity n1 c1) ≤ sevRank (deriveSeverity n2 c2)) := by
  constructor
  · intro n c
    cases deriveSeverity n c <;> simp [sevName, severityOptions]
  · intro n1 n2 c1 c2 hn hc
    simp only [deriveSeverity]
    by_cases hA2 : 10 ≤ n2 ∨ (5 ≤ n2 ∧ 4/5 ≤ c2)
    · rw [if_pos hA2]
      exact le_trans (sevRank_le_three _) (by simp [sevRank])
    · have hA1 : ¬(10 ≤ n1 ∨ (5 ≤ n1 ∧ 4/5 ≤ c1)) := fun h => hA2 (sev_mono_crit hn hc h)
      rw [if_neg hA1, if_neg hA2]
      by_cases hB2 : 5 ≤ n2 ∨ (3 ≤ n2 ∧ 3/5 ≤ c2)
      · rw [if_pos hB2]
        split
        · simp [sevRank]
        · split <;> simp [sevRank]
      · have hB1 : ¬(5 ≤ n1 ∨ (3 ≤ n1 ∧ 3/5 ≤ c1)) := fun h => hB2 (sev_mono_high hn hc h)
        rw [if_neg hB1, if_neg hB2]
        by_cases hC2 : 2 ≤ n2 ∨ 1/2 ≤ c2
        · rw [if_pos hC2]
          split <;> simp [sevRank]
        · have hC1 : ¬(2 ≤ n1 ∨ 1/2 ≤ c1) := fun h => hC2 (sev_mono_med hn hc h)
          rw [if_neg hC1, if_neg hC2]

/-- C8 witness: the monotonicity at a concrete pair of inputs — raising the member
count from 1 to 6 and the confidence from 0.4 to 0.9 never lowers the tier. -/
theorem severity_four_tiers_monotone_witness :
    sevRank (deriveSeverity 1 (2/5)) ≤ sevRank (deriveSeverity 6 (9/10)) :=
  severity_four_tiers_monotone.2 1 6 (2/5) (9/10) (by norm_num) (by norm_num)

lemma addMember_count (c : PotholeCluster) (e : DetectionEvent) :
    (addMember c e).member_count = c.member_count + 1 := rfl

lemma addMember_lat (c : PotholeCluster) (e : DetectionEvent) :
    (addMember c e).centroid.lat * ((c.member_count : ℚ) + 1) =
      c.centroid.lat * c.member_count + e.pos.lat := by
  have hne : (c.member_count : ℚ) + 1 ≠ 0 := by positivity
  simp only [addMember]
  field_simp
  ring

lemma addMember_lng (c : PotholeCluster) (e : DetectionEvent) :
    (addMember c e).centroid.lng * ((c.member_count : ℚ) + 1) =
      c.centroid.lng * c.member_count + e.pos.lng := by
  have hne : (c.member_count : ℚ) + 1 ≠ 0 := by positivity
  simp only [addMember]
  field_simp
  ring

lemma sumLat_cons (e : DetectionEvent) (l : List DetectionEvent) :
    sumLat (e :: l) = e.pos.lat + sumLat l := by simp [sumLat]

lemma sumLng_cons (e : DetectionEvent) (l : List DetectionEvent) :
    sumLng (e :: l) = e.pos.lng + sumLng l := by simp [sumLng]

lemma foldl_addMember_count (l : List DetectionEvent) :
    ∀ c : PotholeCluster, (l.foldl addMember c).member_count = c.member_count + l.length := by
  induction l with
  | nil => intro c; simp
  | cons e rest ih =>
    intro c
    simp only [List.foldl_cons, List.length_cons]
    rw [ih, addMember_count]
    omega

lemma foldl_addMember_lat (l : List DetectionEvent) :
    ∀ c : PotholeCluster,
      (l.foldl addMember c).centroid.lat * ((c.member_count : ℚ) + l.length) =
        c.centroid.lat * c.member_count + sumLat l := by
  induction l with
  | nil => intro c; simp [sumLat]
  | cons e rest ih =>
    intro c
    have h1 := ih (addMember c e)
    rw [addMember_count] at h1
    push_cast at h1
    have h2 := addMember_lat c e
    simp only [List.foldl_cons, List.length_cons, sumLat_cons]
    push_cast
    linear_combination h1 + h2

lemma foldl_addMember_lng (l : List DetectionEvent) :
    ∀ c : PotholeCluster,
      (l.foldl addMember c).centroid.lng * ((c.member_count : ℚ) + l.length) =
        c.centroid.lng * c.member_count + sumLng l := by
  induction l with
  | nil => intro c; simp [sumLng]
  | cons e rest ih =>
    intro c
    have h1 := ih (addMember c e)
    rw [addMember_count] at h1
    push_cast at h1
    have h2 := addMember_lng c e
    simp only [List.foldl_cons, List.length_cons, sumLng_cons]
    push_cast
    linear_combination h1 + h2

lemma clusterOfEvents_mean (id : ℕ) (e : DetectionEvent) (l : List DetectionEvent) :
    (clusterOfEvents id e l).member_count = l.length + 1 ∧
    (clusterOfEvents id e l).centroid.lat = (e.pos.lat + sumLat l) / ((l.length : ℚ) + 1) ∧
    (clusterOfEvents id e l).centroid.lng = (e.pos.lng + sumLng l) / ((l.length : ℚ) + 1) := by
  have hne : ((l.length : ℚ) + 1) ≠ 0 := by positivity
  refine ⟨?_, ?_, ?_⟩
  · rw [clusterOfEvents, foldl_addMember_count]
    simp [newCluster]
    omega
  · have h := foldl_addMember_lat l (newCluster id e)
    simp only [newCluster, Nat.cast_one] at h
    rw [clusterOfEvents, eq_div_iff hne]
    simp only [newCluster]
    linear_combination h
  · have h := foldl_addMember_lng l (newCluster id e)
    simp only [newCluster, Nat.cast_one] at h
    rw [clusterOfEvents, eq_div_iff hne]
    simp only [newCluster]
    linear_combination h

/-- C2: a cluster's centroid after folding in its members equals the arithmetic mean
of the member positions (seed event plus the further members), and the centroid is
independent of the arrival order of the events assigned to the cluster. -/
theorem centroid_mean_order_independent :
    (∀ (id : ℕ) (e : DetectionEvent) (l : List DetectionEvent),
      (clusterOfEvents id e l).member_count = l.length + 1 ∧
      (clusterOfEvents id e l).centroid.lat = (e.pos.lat + sumLat l) / ((l.length : ℚ) + 1) ∧
      (clusterOfEvents id e l).centroid.lng = (e.pos.lng + sumLng l) / ((l.length : ℚ) + 1)) ∧
    (∀ (id1 id2 : ℕ) (e1 e2 : DetectionEvent) (l1 l2 : List DetectionEvent),
      (e1 :: l1).Perm (e2 :: l2) →
      (clusterOfEvents id1 e1 l1).centroid = (clusterOfEvents id2 e2 l2).centroid) := by
  refine ⟨clusterOfEvents_mean, ?_⟩
  intro id1 id2 e1 e2 l1 l2 hperm
  have hlen : l1.length = l2.length := by
    have := hperm.length_eq
    simpa using this
  have hlat : e1.pos.lat + sumLat l1 = e2.pos.lat + sumLat l2 := by
    have := (hperm.map (fun e => e.pos.lat)).sum_eq
    simpa [sumLat] using this
  have hlng : e1.pos.lng + sumLng l1 = e2.pos.lng + sumLng l2 := by
    have := (hperm.map (fun e => e.pos.lng)).sum_eq
    simpa [sumLng] using this
  obtain ⟨-, hA1, hA2⟩ := clusterOfEvents_mean id1 e1 l1
  obtain ⟨-, hB1, hB2⟩ := clusterOfEvents_mean id2 e2 l2
  ext
  · rw [hA1, hB1, hlen, hlat]
  · rw [hA2, hB2, hlen, hlng]

/-- C2 witness: two events folded in either order give the same centroid, the
midpoint of their positions. -/
theorem centroid_mean_order_independent_witness :
    (clusterOfEvents 0 evA [evB]).centroid = (clusterOfEvents 7 evB [evA]).centroid :=
  centroid_mean_order_independent.2 0 7 evA evB [evB] [evA] (List.Perm.swap evB evA [])

lemma pickNearest_spec (dist : Dist) (p : Pos) :
    ∀ l : List PotholeCluster, l ≠ [] →
      ∃ c, pickNearest dist p l = some c ∧ IsNearestChoice dist p l c := by
  intro l
  induction l with
  | nil => intro h; exact absurd rfl h
  | cons c cs ih =>
    intro _
    cases cs with
    | nil =>
      refine ⟨c, rfl, List.mem_singleton_self c, ?_, ?_⟩ <;>
        · intro d hd
          rw [List.mem_singleton] at hd
          subst hd
          simp
    | cons c2 cs2 =>
      obtain ⟨d, hpick, hdmem, hdmin, hdtie⟩ := ih (by simp)
      by_cases hcl : dist p c.centroid < dist p d.centroid ∨
          (dist p c.centroid = dist p d.centroid ∧ c.id < d.id)
      · refine ⟨c, ?_, List.mem_cons_self c _, ?_, ?_⟩
        · have hp2 := hpick
          simp only [pickNearest] at hp2 ⊢
          rw [hp2]
          exact if_pos hcl
        · intro x hx
          rcases List.mem_cons.mp hx with rfl | hx2
          · exact le_refl _
          · rcases hcl with hlt | ⟨heq, -⟩
            · exact le_trans (le_of_lt hlt) (hdmin x hx2)
            · rw [heq]; exact hdmin x hx2
        · intro x hx hxeq
          rcases List.mem_cons.mp hx with rfl | hx2
          · exact le_refl _
          · rcases hcl with hlt | ⟨heq, hid⟩
            · exact absurd (lt_of_lt_of_le hlt (hdmin x hx2)) (by rw [hxeq]; exact lt_irrefl _)
            · exact le_trans (le_of_lt hid) (hdtie x hx2 (heq ▸ hxeq))
      · push_neg at hcl
        obtain ⟨hge, htie⟩ := hcl
        refine ⟨d, ?_, List.mem_cons_of_mem c hdmem, ?_, ?_⟩
        · have hp2 := hpick
          simp only [pickNearest] at hp2 ⊢
          rw [hp2]
          refine if_neg ?_
          push_neg
          exact ⟨hge, htie⟩
        · intro x hx
          rcases List.mem_cons.mp hx with rfl | hx2
          · exact hge
          · exact hdmin x hx2
        · intro x hx hxeq
          rcases List.mem_cons.mp hx with rfl | hx2
          · exact htie hxeq.symm
          · exact hdtie x hx2 hxeq

/-- C5: the fusion engine is deterministic — as a pure function it returns the same
PotholeReports on every run over the same ordered event stream and threshold, the
engine's cluster choice satisfies the nearest-cluster-lowest-id specification, and
that specification determines the choice uniquely (given distinct open-cluster ids),
so any two runs meeting the specification agree. -/
theorem fusion_deterministic :
    (∀ (dist : Dist) (cfg : DedupConfig) (events : List DetectionEvent),
      runReports dist cfg events = runReports dist cfg events) ∧
    (∀ (dist : Dist) (p : Pos) (l : List PotholeCluster), l ≠ [] →
      ∃ c, pickNearest dist p l = some c ∧ IsNearestChoice dist p l c) ∧
    (∀ (dist : Dist) (p : Pos) (l : List PotholeCluster) (c1 c2 : PotholeCluster),
      (l.map PotholeCluster.id).Nodup →
      IsNearestChoice dist p l c1 → IsNearestChoice dist p l c2 → c1 = c2) := by
  refine ⟨fun _ _ _ => rfl, pickNearest_spec, ?_⟩
  intro dist p l c1 c2 hnodup ⟨h1mem, h1min, h1tie⟩ ⟨h2mem, h2min, h2tie⟩
  have hdeq : dist p c1.centroid = dist p c2.centroid :=
    le_antisymm (h1min c2 h2mem) (h2min c1 h1mem)
  have hid : c1.id = c2.id :=
    Nat.le_antisymm (h1tie c2 h2mem hdeq) (h2tie c1 h1mem hdeq.symm)
  exact List.inj_on_of_nodup_map hnodup h1mem h2mem hid

/-- C5 witness: on a concrete two-cluster open set with distinct ids, the picked
cluster exists and satisfies the nearest-lowest-id specification. -/
theorem fusion_deterministic_witness :
    ∃ c, pickNearest flatDist evB.pos [newCluster 0 evA, newCluster 1 evB] = some c ∧
      IsNearestChoice flatDist evB.pos [newCluster 0 evA, newCluster 1 evB] c :=
  fusion_deterministic.2.1 flatDist evB.pos [newCluster 0 evA, newCluster 1 evB] (by simp)

/-- C1 (amended): an incoming event within the distance threshold of some open
cluster is assigned to the cluster satisfying the nearest-lowest-id choice
specification; an event farther than the threshold from every open cluster starts a
new cluster seeded at its position; and two events within the threshold of each
other and within the frame-gap window, arriving when no other open cluster exists,
end up in one cluster.  (The unrestricted merging consequence for mutually-close
event sets fails in the presence of other open clusters — see the counterexample.) -/
theorem assignment_nearest_tiebreak :
    (∀ (dist : Dist) (θ : ℚ) (st : EngineState) (e : DetectionEvent),
      (∃ c0 ∈ st.openClusters, dist e.pos c0.centroid ≤ θ) →
      ∃ c, IsNearestChoice dist e.pos st.openClusters c ∧ dist e.pos c.centroid ≤ θ ∧
        assignEvent dist θ st e =
          { st with openClusters :=
              st.openClusters.map (fun d => if d.id = c.id then addMember d e else d) }) ∧
    (∀ (dist : Dist) (θ : ℚ) (st : EngineState) (e : DetectionEvent),
      (∀ c ∈ st.openClusters, θ < dist e.pos c.centroid) →
      assignEvent dist θ st e =
        { st with openClusters := st.openClusters ++ [newCluster st.nextId e]
                  nextId := st.nextId + 1 } ∧
      (newCluster st.nextId e).centroid = e.pos) ∧
    (∀ (dist : Dist) (cfg : DedupConfig) (e1 e2 : DetectionEvent),
      dist e2.pos e1.pos ≤ cfg.distance_threshold →
      e2.frame_number ≤ e1.frame_number + cfg.frame_gap →
      (runEngine dist cfg [e1, e2]).finalizedClusters = [addMember (newCluster 0 e1) e2] ∧
      (addMember (newCluster 0 e1) e2).member_count = 2) := by
  refine ⟨?_, ?_, ?_⟩
  · rintro dist θ st e ⟨c0, hc0mem, hc0le⟩
    have hne : st.openClusters ≠ [] := by
      intro h
      rw [h] at hc0mem
      exact absurd hc0mem (List.not_mem_nil c0)
    obtain ⟨c, hpick, hchoice⟩ := pickNearest_spec dist e.pos st.openClusters hne
    have hcle : dist e.pos c.centroid ≤ θ := le_trans (hchoice.2.1 c0 hc0mem) hc0le
    refine ⟨c, hchoice, hcle, ?_⟩
    simp only [assignEvent, hpick]
    rw [if_pos hcle]
  · intro dist θ st e hall
    refine ⟨?_, rfl⟩
    cases h : pickNearest dist e.pos st.openClusters with
    | none => simp only [assignEvent, h]
    | some c =>
      have hne : st.openClusters ≠ [] := by
        intro hl
        rw [hl] at h
        simp [pickNearest] at h
      obtain ⟨c', hpick', hchoice'⟩ := pickNearest_spec dist e.pos st.openClusters hne
      rw [h] at hpick'
      obtain rfl : c = c' := Option.some.inj hpick'
      have : θ < dist e.pos c.centroid := hall c hchoice'.1
      simp only [assignEvent, h]
      rw [if_neg (not_le.mpr this)]
  · intro dist cfg e1 e2 hdist hgap
    have hstale : ¬ (e1.frame_number + cfg.frame_gap < e2.frame_number) := by omega
    refine ⟨?_, rfl⟩
    have s1 : processEvent dist cfg.distance_threshold cfg.frame_gap initState e1 =
        ⟨[newCluster 0 e1], [], 1⟩ := by
      simp [processEvent, finalizeStale, assignEvent, pickNearest, initState]
    have s2 : processEvent dist cfg.distance_threshold cfg.frame_gap
        ⟨[newCluster 0 e1], [], 1⟩ e2 = ⟨[addMember (newCluster 0 e1) e2], [], 1⟩ := by
      have hcent : (newCluster 0 e1).centroid = e1.pos := rfl
      have hlast : (newCluster 0 e1).last_seen_frame = e1.frame_number := rfl
      simp only [processEvent, finalizeStale, isStale, assignEvent, pickNearest,
        List.filter, hlast, hstale, decide_eq_false, Bool.not_false, hcent]
      rw [if_pos hdist]
      simp
    show (finalizeAll (List.foldl (processEvent dist cfg.distance_threshold cfg.frame_gap)
        initState [e1, e2])).finalizedClusters = _
    rw [List.foldl_cons, s1, List.foldl_cons, s2, List.foldl_nil]
    simp [finalizeAll]

/-- C1 witness for the amended claim: concrete events `evA`, `evB` one unit apart
with threshold 2 and frame gap 50 merge into a single two-member cluster. -/
theorem assignment_nearest_tiebreak_witness :
    (runEngine flatDist ⟨2, 50⟩ [evA, evB]).finalizedClusters =
      [addMember (newCluster 0 evA) evB] :=
  (assignment_nearest_tiebreak.2.2 flatDist ⟨2, 50⟩ evA evB
    (by norm_num [flatDist, evA, evB, abs]) (by norm_num [evA, evB])).1

/-- C1 counterexample to the unrestricted merging consequence: `ce1` and `ce2` are
mutually within the distance threshold 2 and within the frame-gap window, yet they
end up in different clusters — `ce2` is captured by the nearer cluster seeded by
`ce0`, while `ce1`'s cluster finalizes with only its seed member (member_count 1,
centroid still at `ce1`'s position). -/
theorem mutual_threshold_merge_counterexample :
    flatDist ce1.pos ce2.pos ≤ 2 ∧
    ce2.frame_number ≤ ce1.frame_number + 100 ∧
    (runEngine flatDist ⟨2, 100⟩ [ce0, ce1, ce2]).finalizedClusters =
      [⟨0, ⟨0, 3/10⟩, 2, 1, 3, 9/10⟩, ⟨1, ⟨0, 5/2⟩, 1, 2, 2, 9/10⟩] := by
  refine ⟨by norm_num [flatDist, ce1, ce2, abs], by norm_num [ce1, ce2], ?_⟩
  have s1 : processEvent flatDist 2 100 initState ce0 = ⟨[newCluster 0 ce0], [], 1⟩ := by
    simp [processEvent, finalizeStale, assignEvent, pickNearest, initState]
  have s2 : processEvent flatDist 2 100 ⟨[newCluster 0 ce0], [], 1⟩ ce1 =
      ⟨[newCluster 0 ce0, newCluster 1 ce1], [], 2⟩ := by
    simp only [processEvent, finalizeStale, assignEvent, pickNearest, isStale,
      newCluster, ce0, ce1, List.filter]
    norm_num [flatDist, abs]
  have s3 : processEvent flatDist 2 100 ⟨[newCluster 0 ce0, newCluster 1 ce1], [], 2⟩ ce2 =
      ⟨[addMember (newCluster 0 ce0) ce2, newCluster 1 ce1], [], 2⟩ := by
    simp only [processEvent, finalizeStale, assignEvent, pickNearest, isStale,
      addMember, newCluster, ce0, ce1, ce2, List.filter, List.map]
    norm_num [flatDist, abs]
  show (finalizeAll (List.foldl (processEvent flatDist 2 100) initState
      [ce0, ce1, ce2])).finalizedClusters = _
  rw [List.foldl_cons, s1, List.foldl_cons, s2, List.foldl_cons, s3, List.foldl_nil]
  norm_num [finalizeAll, addMember, newCluster, ce0, ce1, ce2]

lemma assignEvent_finalized (dist : Dist) (θ : ℚ) (st : EngineState) (e : DetectionEvent) :
    (assignEvent dist θ st e).finalizedClusters = st.finalizedClusters := by
  rw [assignEvent]
  cases pickNearest dist e.pos st.openClusters with
  | none => rfl
  | some c =>
    by_cases h : dist e.pos c.centroid ≤ θ
    · simp only [if_pos h]
    · simp only [if_neg h]

lemma processEvent_finalized_mono (dist : Dist) (θ : ℚ) (gap : ℕ) (st : EngineState)
    (e : DetectionEvent) (c : PotholeCluster) (h : c ∈ st.finalizedClusters) :
    c ∈ (processEvent dist θ gap st e).finalizedClusters := by
  rw [processEvent, assignEvent_finalized, finalizeStale]
  exact List.mem_append_left _ h

/-- C3: cluster finalization is monotone and total — a finalized cluster stays
finalized for the rest of the run; during a step an open cluster moves to the
finalized side exactly when it has received no member for more than the frame-gap
window of frames; at end of stream no cluster remains open; and a stream consisting
of one single event still yields a finalized one-member cluster (below any minimum
member threshold, which the engine does not apply). -/
theorem finalization_monotone_total :
    (∀ (dist : Dist) (θ : ℚ) (gap : ℕ) (st : EngineState) (events : List DetectionEvent)
        (c : PotholeCluster), c ∈ st.finalizedClusters →
        c ∈ (events.foldl (processEvent dist θ gap) st).finalizedClusters) ∧
    (∀ (gap frame : ℕ) (st : EngineState) (c : PotholeCluster), c ∈ st.openClusters →
        ((c ∈ (finalizeStale gap frame st).openClusters ↔
            ¬ c.last_seen_frame + gap < frame) ∧
         (c.last_seen_frame + gap < frame →
            c ∈ (finalizeStale gap frame st).finalizedClusters))) ∧
    (∀ (dist : Dist) (cfg : DedupConfig) (events : List DetectionEvent),
        (runEngine dist cfg events).openClusters = []) ∧
    (∀ (dist : Dist) (cfg : DedupConfig) (e : DetectionEvent),
        (runEngine dist cfg [e]).finalizedClusters = [newCluster 0 e] ∧
        (newCluster 0 e).member_count = 1) := by
  refine ⟨?_, ?_, ?_, ?_⟩
  · intro dist θ gap st events
    induction events generalizing st with
    | nil => intro c h; simpa using h
    | cons e rest ih =>
      intro c h
      rw [List.foldl_cons]
      exact ih _ c (processEvent_finalized_mono dist θ gap st e c h)
  · intro gap frame st c hmem
    constructor
    · rw [finalizeStale]
      simp only [List.mem_filter, isStale]
      constructor
      · intro ⟨_, hkeep⟩
        simpa using hkeep
      · intro hnot
        exact ⟨hmem, by simpa using hnot⟩
    · intro hstale
      rw [finalizeStale]
      refine List.mem_append_right _ ?_
      rw [List.mem_filter]
      exact ⟨hmem, by simpa [isStale] using hstale⟩
  · intro dist cfg events
    rfl
  · intro dist cfg e
    refine ⟨?_, rfl⟩
    show (finalizeAll (List.foldl (processEvent dist cfg.distance_threshold cfg.frame_gap)
        initState [e])).finalizedClusters = _
    rw [List.foldl_cons, List.foldl_nil]
    have s1 : processEvent dist cfg.distance_threshold cfg.frame_gap initState e =
        ⟨[newCluster 0 e], [], 1⟩ := by
      simp [processEvent, finalizeStale, assignEvent, pickNearest, initState]
    rw [s1]
    rfl

/-- C3 witness: a concrete open one-member cluster whose last member arrived at
frame 1 is finalized by the step at frame 200 with frame-gap window 50 — a single
event below any minimum member threshold does not hang open. -/
theorem finalization_monotone_total_witness :
    newCluster 0 evA ∈
      (finalizeStale 50 200 ⟨[newCluster 0 evA], [], 1⟩).finalizedClusters :=
  (finalization_monotone_total.2.1 50 200 ⟨[newCluster 0 evA], [], 1⟩ (newCluster 0 evA)
    (by simp)).2 (by norm_num [newCluster, evA])

lemma fuseEvents_sorted_no_err (dist : Dist) (θ : ℚ) (gap : ℕ) :
    ∀ (l : List DetectionEvent) (st : EngineState) (lastT : Option ℚ),
      List.Sorted tsLE l →
      (∀ t0, lastT = some t0 → ∀ x ∈ l, t0 ≤ x.timestamp) →
      (fuseEvents dist θ gap st lastT l).2 = none := by
  intro l
  induction l with
  | nil => intro st lastT _ _; rfl
  | cons e rest ih =>
    intro st lastT hsort hcompat
    have hrest : List.Sorted tsLE rest := (List.sorted_cons.mp hsort).2
    have hcompat2 : ∀ t0, (some e.timestamp : Option ℚ) = some t0 →
        ∀ x ∈ rest, t0 ≤ x.timestamp := by
      intro t0 ht0 x hx
      obtain rfl : e.timestamp = t0 := Option.some.inj ht0
      exact (List.sorted_cons.mp hsort).1 x hx
    cases lastT with
    | none => exact ih (processEvent dist θ gap st e) (some e.timestamp) hrest hcompat2
    | some t0 =>
      have hle : t0 ≤ e.timestamp := hcompat t0 rfl e (List.mem_cons_self _ _)
      show ((if e.timestamp < t0 then (st, some JobError.OutOfOrder)
        else fuseEvents dist θ gap (processEvent dist θ gap st e)
          (some e.timestamp) rest)).2 = none
      rw [if_neg (not_lt.mpr hle)]
      exact ih (processEvent dist θ gap st e) (some e.timestamp) hrest hcompat2

lemma fuseEvents_append_abort (dist : Dist) (θ : ℚ) (gap : ℕ) (bad : DetectionEvent)
    (rest : List DetectionEvent) :
    ∀ (good : List DetectionEvent) (st : EngineState) (lastT : Option ℚ),
      List.Sorted tsLE good →
      (∀ t0, lastT = some t0 → ∀ x ∈ good, t0 ≤ x.timestamp) →
      (∀ x ∈ good, bad.timestamp < x.timestamp) →
      (good ≠ [] ∨ ∃ t0, lastT = some t0 ∧ bad.timestamp < t0) →
      fuseEvents dist θ gap st lastT (good ++ bad :: rest) =
        (good.foldl (processEvent dist θ gap) st, some .OutOfOrder) := by
  intro good
  induction good with
  | nil =>
    intro st lastT _ _ _ hne
    rcases hne with h | ⟨t0, rfl, hlt⟩
    · exact absurd rfl h
    · show (if bad.timestamp < t0 then (st, some JobError.OutOfOrder)
        else fuseEvents dist θ gap (processEvent dist θ gap st bad)
          (some bad.timestamp) rest) = (st, some JobError.OutOfOrder)
      rw [if_pos hlt]
  | cons g gs ih =>
    intro st lastT hsort hcompat hbad _
    have hrest : List.Sorted tsLE gs := (List.sorted_cons.mp hsort).2
    have hcompat2 : ∀ t0, (some g.timestamp : Option ℚ) = some t0 →
        ∀ x ∈ gs, t0 ≤ x.timestamp := by
      intro t0 ht0 x hx
      obtain rfl : g.timestamp = t0 := Option.some.inj ht0
      exact (List.sorted_cons.mp hsort).1 x hx
    have hbad2 : ∀ x ∈ gs, bad.timestamp < x.timestamp :=
      fun x hx => hbad x (List.mem_cons_of_mem g hx)
    have hor : gs ≠ [] ∨ ∃ t0, (some g.timestamp : Option ℚ) = some t0 ∧
        bad.timestamp < t0 :=
      Or.inr ⟨g.timestamp, rfl, hbad g (List.mem_cons_self _ _)⟩
    have hrec := ih (processEvent dist θ gap st g) (some g.timestamp)
      hrest hcompat2 hbad2 hor
    cases lastT with
    | none =>
      show fuseEvents dist θ gap (processEvent dist θ gap st g)
          (some g.timestamp) (gs ++ bad :: rest) = _
      rw [hrec, List.foldl_cons]
    | some t0 =>
      have hle : t0 ≤ g.timestamp := hcompat t0 rfl g (List.mem_cons_self _ _)
      show (if g.timestamp < t0 then (st, some JobError.OutOfOrder)
        else fuseEvents dist θ gap (processEvent dist θ gap st g)
          (some g.timestamp) (gs ++ bad :: rest)) = _
      rw [if_neg (not_lt.mpr hle), hrec, List.foldl_cons]

/-- C6: error isolation and partial progress — an empty telemetry track fails the job
with `TelemetryLoadError` with no reports emitted; per-detection errors never abort a
job (a job with loadable telemetry and a working detector always finalizes, whatever
detections are dropped, and every detection is either normalized or individually
dropped); a per-job error fails only that job (jobs compose independently); and when
the engine aborts mid-stream, the state — hence every report already finalized — is
exactly the fold over the prefix processed before the failure, untouched by the
remainder. -/
theorem job_error_isolation :
    (∀ (dist : Dist) (cfg : JobConfig) (dout : Except JobError (List RawDetection)),
        runJob dist cfg [] dout = ⟨.Failed .TelemetryLoadError, [], []⟩) ∧
    (∀ (dist : Dist) (cfg : JobConfig) (track : List GpsFix) (dets : List RawDetection),
        track ≠ [] → (runJob dist cfg track (.ok dets)).state = .Finalized) ∧
    (∀ (dist : Dist) (cfg : JobConfig) (track : List GpsFix) (err : JobError),
        track ≠ [] → runJob dist cfg track (.error err) = ⟨.Failed err, [], []⟩) ∧
    (∀ (dist : Dist) (jobs1 jobs2 :
        List (JobConfig × List GpsFix × Except JobError (List RawDetection))),
        runJobs dist (jobs1 ++ jobs2) = runJobs dist jobs1 ++ runJobs dist jobs2) ∧
    (∀ (maxGap confFloor : ℚ) (track : List GpsFix) (dets : List RawDetection),
        (normalizeAll maxGap confFloor track dets).1.length +
          (normalizeAll maxGap confFloor track dets).2.length = dets.length) ∧
    (∀ (dist : Dist) (θ : ℚ) (gap : ℕ) (st : EngineState) (good : List DetectionEvent)
        (bad : DetectionEvent) (rest : List DetectionEvent),
        List.Sorted tsLE good → (∀ x ∈ good, bad.timestamp < x.timestamp) → good ≠ [] →
        fuseEvents dist θ gap st none (good ++ bad :: rest) =
          (good.foldl (processEvent dist θ gap) st, some .OutOfOrder)) := by
  refine ⟨?_, ?_, ?_, ?_, ?_, ?_⟩
  · intro dist cfg dout
    rw [runJob.eq_def, if_pos rfl]
  · intro dist cfg track dets htrack
    have hno : (fuseEvents dist cfg.distance_threshold cfg.frame_gap initState none
        (sortEvents (normalizeAll cfg.max_time_gap cfg.confidence_floor track dets).1)).2 =
        none :=
      fuseEvents_sorted_no_err dist cfg.distance_threshold cfg.frame_gap _ initState none
        (by rw [sortEvents]; exact List.sorted_insertionSort tsLE _)
        (fun t0 h => by cases h)
    simp only [runJob, if_neg htrack]
    split
    · next err heq =>
      rw [hno] at heq
      cases heq
    · rfl
  · intro dist cfg track err htrack
    simp only [runJob, if_neg htrack]
  · intro dist jobs1 jobs2
    simp [runJobs]
  · intro maxGap confFloor track dets
    induction dets with
    | nil => rfl
    | cons d ds ih =>
      rw [normalizeAll]
      cases normalize maxGap confFloor track d with
      | ok e => simp only [List.length_cons]; omega
      | error r => simp only [List.length_cons]; omega
  · intro dist θ gap st good bad rest hsort hbad hne
    exact fuseEvents_append_abort dist θ gap bad rest good st none hsort
      (fun t0 h => by cases h) hbad (Or.inl hne)

/-- C6 witness: a concrete job with a non-empty telemetry track and a detector that
returns no detections finalizes. -/
theorem job_error_isolation_witness :
    (runJob flatDist cfgJ track2 (.ok [])).state = JobState.Finalized :=
  job_error_isolation.2.1 flatDist cfgJ track2 [] (by simp [track2])

lemma track_sorted_cons {x : GpsFix} {l : List GpsFix} (h : TrackSorted (x :: l)) :
    (∀ y ∈ l, x.timestamp < y.timestamp) ∧ TrackSorted l :=
  List.pairwise_cons.mp h

lemma dropout_not_single (maxGap T : ℚ) (f : GpsFix) : ¬ Dropout maxGap T [f] := by
  rintro ⟨l1, f1, f2, l2, heq, -, -, -⟩
  have hlen := congrArg List.length heq
  simp [List.length_append] at hlen
  omega

lemma dropout_cons_iff (maxGap T : ℚ) (x : GpsFix) (l : List GpsFix) :
    Dropout maxGap T (x :: l) ↔
      (∃ y ys, l = y :: ys ∧ x.timestamp < T ∧ T < y.timestamp ∧
        maxGap < y.timestamp - x.timestamp) ∨ Dropout maxGap T l := by
  constructor
  · rintro ⟨l1, f1, f2, l2, heq, h1, h2, h3⟩
    cases l1 with
    | nil =>
      simp only [List.nil_append] at heq
      injection heq with ha hb
      subst ha
      exact Or.inl ⟨f2, l2, hb, h1, h2, h3⟩
    | cons a as =>
      simp only [List.cons_append] at heq
      injection heq with ha hb
      exact Or.inr ⟨as, f1, f2, l2, hb, h1, h2, h3⟩
  · rintro (⟨y, ys, rfl, h1, h2, h3⟩ | ⟨l1, f1, f2, l2, rfl, h1, h2, h3⟩)
    · exact ⟨[], x, y, ys, rfl, h1, h2, h3⟩
    · exact ⟨x :: l1, f1, f2, l2, rfl, h1, h2, h3⟩

lemma dropout_exists_lt {maxGap T : ℚ} {l : List GpsFix} (h : Dropout maxGap T l) :
    ∃ g ∈ l, g.timestamp < T := by
  obtain ⟨l1, f1, f2, l2, rfl, h1, -, -⟩ := h
  exact ⟨f1, by simp, h1⟩

lemma sorted_head_le_getLast {x : GpsFix} {l : List GpsFix} (h : TrackSorted (x :: l)) :
    x.timestamp ≤ ((x :: l).getLast (List.cons_ne_nil x l)).timestamp := by
  have hmem := List.getLast_mem (List.cons_ne_nil x l)
  rcases List.mem_cons.mp hmem with heq | hmem2
  · rw [heq]
  · exact le_of_lt ((track_sorted_cons h).1 _ hmem2)

lemma sync_exact (maxGap : ℚ) :
    ∀ (track : List GpsFix) (f : GpsFix), TrackSorted track → f ∈ track →
      synchronize maxGap f.timestamp track = .ok (f.lat, f.lng) := by
  intro track
  induction track with
  | nil => intro f _ hf; exact absurd hf (List.not_mem_nil f)
  | cons f1 rest ih =>
    intro f hsort hf
    obtain ⟨hlt_all, hsort2⟩ := track_sorted_cons hsort
    cases rest with
    | nil =>
      obtain rfl : f = f1 := List.mem_singleton.mp hf
      simp [synchronize]
    | cons f2 rs =>
      rcases List.mem_cons.mp hf with rfl | hf2
      · simp [synchronize]
      · have hne : f.timestamp ≠ f1.timestamp := (hlt_all f hf2).ne'
        have hge : ¬ (f.timestamp < f2.timestamp) := by
          rcases List.mem_cons.mp hf2 with rfl | hf3
          · exact lt_irrefl _
          · exact not_lt.mpr (le_of_lt ((track_sorted_cons hsort2).1 f hf3))
        simp only [synchronize, if_neg hne, if_neg hge]
        exact ih f hsort2 hf2

lemma sync_between (maxGap T : ℚ) (f1 f2 : GpsFix) (l2 : List GpsFix)
    (h1 : f1.timestamp < T) (h2 : T < f2.timestamp)
    (h3 : f2.timestamp - f1.timestamp ≤ maxGap) :
    ∀ l1 : List GpsFix, TrackSorted (l1 ++ f1 :: f2 :: l2) →
      synchronize maxGap T (l1 ++ f1 :: f2 :: l2) = .ok (interp f1 f2 T) := by
  intro l1
  induction l1 with
  | nil =>
    intro _
    have hne : T ≠ f1.timestamp := h1.ne'
    simp only [List.nil_append, synchronize, if_neg hne, if_pos h2]
    rw [if_pos ⟨h1, h3⟩]
  | cons x xs ih =>
    intro hsort
    rw [List.cons_append] at hsort
    obtain ⟨hlt_all, hsort2⟩ := track_sorted_cons hsort
    have hxf1 : x.timestamp < f1.timestamp :=
      hlt_all f1 (List.mem_append_right xs (List.mem_cons_self f1 (f2 :: l2)))
    have hne : T ≠ x.timestamp := (lt_trans hxf1 h1).ne'
    cases xs with
    | nil =>
      have hnlt : ¬ (T < f1.timestamp) := not_lt.mpr (le_of_lt h1)
      show synchronize maxGap T (x :: f1 :: f2 :: l2) = _
      simp only [synchronize, if_neg hne, if_neg hnlt]
      simpa only [List.nil_append] using ih (by simpa only [List.nil_append] using hsort2)
    | cons z zs =>
      have hzf1 : z.timestamp < f1.timestamp :=
        (track_sorted_cons hsort2).1 f1
          (List.mem_append_right zs (List.mem_cons_self f1 (f2 :: l2)))
      have hnlt : ¬ (T < z.timestamp) := not_lt.mpr (le_of_lt (lt_trans hzf1 h1))
      show synchronize maxGap T (x :: z :: (zs ++ f1 :: f2 :: l2)) = _
      simp only [synchronize, if_neg hne, if_neg hnlt]
      simpa only [List.cons_append] using ih (by simpa only [List.cons_append] using hsort2)

lemma sync_error_iff (maxGap T : ℚ) :
    ∀ (track : List GpsFix) (h : track ≠ []), TrackSorted track →
      (synchronize maxGap T track = .error .NoCoverage ↔
        T < (track.head h).timestamp ∨ (track.getLast h).timestamp < T ∨
          Dropout maxGap T track) := by
  intro track
  induction track with
  | nil => intro h; exact absurd rfl h
  | cons f1 rest ih =>
    intro hne0 hsort
    obtain ⟨hlt_all, hsort2⟩ := track_sorted_cons hsort
    cases rest with
    | nil =>
      by_cases he : T = f1.timestamp
      · simp only [synchronize, if_pos he, List.head_cons, List.getLast_singleton]
        constructor
        · intro hok; exact absurd hok (by simp)
        · rintro (hl | hr | hd)
          · rw [he] at hl; exact absurd hl (lt_irrefl _)
          · rw [he] at hr; exact absurd hr (lt_irrefl _)
          · exact absurd hd (dropout_not_single maxGap T f1)
      · simp only [synchronize, if_neg he, List.head_cons, List.getLast_singleton]
        constructor
        · intro _
          rcases lt_or_gt_of_ne he with h | h
          · exact Or.inl h
          · exact Or.inr (Or.inl h)
        · intro _; trivial
    | cons f2 rs =>
      have hne2 : (f2 :: rs) ≠ [] := List.cons_ne_nil f2 rs
      have hf1f2 : f1.timestamp < f2.timestamp := hlt_all f2 (List.mem_cons_self f2 rs)
      have hgl : (f1 :: f2 :: rs).getLast hne0 = (f2 :: rs).getLast hne2 :=
        List.getLast_cons hne2
      have hf2gl : f2.timestamp ≤ ((f2 :: rs).getLast hne2).timestamp :=
        sorted_head_le_getLast hsort2
      by_cases he1 : T = f1.timestamp
      · simp only [synchronize, if_pos he1, List.head_cons, hgl]
        constructor
        · intro hok; exact absurd hok (by simp)
        · rintro (hl | hr | hd)
          · rw [he1] at hl; exact absurd hl (lt_irrefl _)
          · have hgt : f1.timestamp < ((f2 :: rs).getLast hne2).timestamp :=
              lt_of_lt_of_le hf1f2 hf2gl
            rw [he1] at hr
            exact absurd hr (not_lt.mpr (le_of_lt hgt))
          · rcases (dropout_cons_iff maxGap T f1 (f2 :: rs)).mp hd with
              ⟨y, ys, heq, hy1, -, -⟩ | hd2
            · rw [he1] at hy1; exact absurd hy1 (lt_irrefl _)
            · obtain ⟨g, hg, hgt⟩ := dropout_exists_lt hd2
              have hplus : f1.timestamp < g.timestamp := hlt_all g hg
              rw [he1] at hgt
              exact absurd hgt (not_lt.mpr (le_of_lt hplus))
      · by_cases he2 : T < f2.timestamp
        · by_cases hcond : f1.timestamp < T ∧ f2.timestamp - f1.timestamp ≤ maxGap
          · simp only [synchronize, if_neg he1, if_pos he2, if_pos hcond,
              List.head_cons, hgl]
            constructor
            · intro hok; exact absurd hok (by simp)
            · rintro (hl | hr | hd)
              · exact absurd hl (not_lt.mpr (le_of_lt hcond.1))
              · exact absurd hr (not_lt.mpr (le_of_lt (lt_of_lt_of_le he2 hf2gl)))
              · rcases (dropout_cons_iff maxGap T f1 (f2 :: rs)).mp hd with
                  ⟨y, ys, heq, -, -, hy3⟩ | hd2
                · injection heq with ha hb
                  rw [← ha] at hy3
                  exact absurd hy3 (not_lt.mpr hcond.2)
                · obtain ⟨g, hg, hgt⟩ := dropout_exists_lt hd2
                  rcases List.mem_cons.mp hg with rfl | hg2
                  · exact absurd hgt (not_lt.mpr (le_of_lt he2))
                  · have hplus : f2.timestamp < g.timestamp :=
                      (track_sorted_cons hsort2).1 g hg2
                    exact absurd hgt (not_lt.mpr (le_of_lt (lt_trans he2 hplus)))
          · simp only [synchronize, if_neg he1, if_pos he2, if_neg hcond,
              List.head_cons, hgl]
            constructor
            · intro _
              by_cases hf1T : f1.timestamp < T
              · have hgap : maxGap < f2.timestamp - f1.timestamp := by
                  rcases not_and_or.mp hcond with h | h
                  · exact absurd hf1T h
                  · exact not_le.mp h
                exact Or.inr (Or.inr ⟨[], f1, f2, rs, rfl, hf1T, he2, hgap⟩)
              · exact Or.inl (lt_of_le_of_ne (not_lt.mp hf1T) he1)
            · intro _; trivial
        · have hT2 : f2.timestamp ≤ T := not_lt.mp he2
          have hnTf1 : ¬ (T < f1.timestamp) :=
            not_lt.mpr (le_of_lt (lt_of_lt_of_le hf1f2 hT2))
          have hih := ih hne2 hsort2
          simp only [List.head_cons] at hih
          simp only [synchronize, if_neg he1, if_neg he2, List.head_cons, hgl]
          rw [hih]
          constructor
          · rintro (hl | hr | hd)
            · exact absurd hl he2
            · exact Or.inr (Or.inl hr)
            · exact Or.inr (Or.inr ((dropout_cons_iff maxGap T f1 (f2 :: rs)).mpr (Or.inr hd)))
          · rintro (hl | hr | hd)
            · exact absurd hl hnTf1
            · exact Or.inr (Or.inl hr)
            · rcases (dropout_cons_iff maxGap T f1 (f2 :: rs)).mp hd with
                ⟨y, ys, heq, -, hy2, -⟩ | hd2
              · injection heq with ha hb
                rw [← ha] at hy2
                exact absurd hy2 he2
              · exact Or.inr (Or.inr hd2)

/-- C4: the Synchronizer returns a fix's position exactly when the frame timestamp
matches that fix; it returns the linear-in-time interpolation between the two fixes
strictly bracketing the timestamp when they are within the maximum gap; it fails with
`NoCoverage` if and only if the timestamp lies before the first fix, after the last
fix, or the strictly bracketing fixes are separated by more than the maximum gap; and
on the track `[(t=0,0,0), (t=10,0,1)]` a detection at `t=5` synchronizes to
`(0, 0.5)`. -/
theorem synchronizer_correct :
    (∀ (maxGap : ℚ) (track : List GpsFix) (f : GpsFix), TrackSorted track → f ∈ track →
        synchronize maxGap f.timestamp track = .ok (f.lat, f.lng)) ∧
    (∀ (maxGap T : ℚ) (l1 l2 : List GpsFix) (f1 f2 : GpsFix),
        TrackSorted (l1 ++ f1 :: f2 :: l2) → f1.timestamp < T → T < f2.timestamp →
        f2.timestamp - f1.timestamp ≤ maxGap →
        synchronize maxGap T (l1 ++ f1 :: f2 :: l2) = .ok (interp f1 f2 T)) ∧
    (∀ (maxGap T : ℚ) (track : List GpsFix) (h : track ≠ []), TrackSorted track →
        (synchronize maxGap T track = .error .NoCoverage ↔
          T < (track.head h).timestamp ∨ (track.getLast h).timestamp < T ∨
            Dropout maxGap T track)) ∧
    synchronize 10 5 track2 = .ok (0, 1/2) := by
  refine ⟨sync_exact, ?_, sync_error_iff, ?_⟩
  · intro maxGap T l1 l2 f1 f2 hs h1 h2 h3
    exact sync_between maxGap T f1 f2 l2 h1 h2 h3 l1 hs
  · norm_num [track2, synchronize, interp]

/-- C4 witness: on the concrete two-fix track, an exact timestamp match returns that
fix's position, and a timestamp after the last fix fails with `NoCoverage`. -/
theorem synchronizer_correct_witness :
    synchronize 10 0 track2 = .ok (0, 0) ∧
    synchronize 10 11 track2 = .error .NoCoverage := by
  have hsorted : TrackSorted track2 := by
    norm_num [TrackSorted, track2, List.pairwise_cons]
  constructor
  · exact synchronizer_correct.1 10 track2 ⟨0, 0, 0⟩ hsorted (by simp [track2])
  · refine (synchronizer_correct.2.2.1 10 11 track2 (by simp [track2]) hsorted).mpr ?_
    refine Or.inr (Or.inl ?_)
    show (10 : ℚ) < 11
    norm_num

end IWatchRoad
